import Mathlib

/-!
Shallow embedding of the asynchronous remote-download task subsystem of
breezechen/go_file_server (src/main.go, with the `isSubDir` helper from the
near-duplicate variant in src/unnamed/part_000), together with theorems
settling the specification claims about it.

Modelling conventions:
* Go's `map[string]*DownloadTaskInfo` is modelled as an insertion-ordered
  association list (`TaskMap`).  Go's map iteration order is unspecified;
  the model's iteration order is insertion order.
* Timestamps (`time.Time`) are abstract integer instants measured in hours,
  so that `time.Since(e).Hours()` becomes `now - e`.
* `uint64` byte counters are modelled as `Nat`.
* Calls into external libraries (got's `Download.Init/Path/Start/RunProgress`,
  `uuid.New`, `filepath.Rel`) are inputs to the embedded operations.
-/

namespace GoFileServer

/-- `DownloadStatus` (src/main.go:52-58). -/
structure DownloadStatus where
  status : String
  totalsize : Nat
  downloaded : Nat
  speed : String
  errMsg : String
deriving DecidableEq, Repr

/-- `DownloadTaskInfo` (src/main.go:60-68).  `startedAt` is always set by
`AddTask`, so it is a plain instant; `endAt` is a nullable instant. -/
structure DownloadTaskInfo where
  taskId : String
  url : String
  filename : String
  filepath : String
  status : DownloadStatus
  startedAt : Int
  endAt : Option Int
deriving DecidableEq, Repr

/-- The manager's `Tasks` map (src/main.go:70-74), as an insertion-ordered
association list from task id to task record. -/
abbrev TaskMap := List (String × DownloadTaskInfo)

/-- Map lookup `dm.Tasks[taskId]`; `none` models Go's `nil` for a missing key. -/
def lookupTask (dm : TaskMap) (taskId : String) : Option DownloadTaskInfo :=
  (dm.find? (fun p => p.1 == taskId)).map (fun p => p.2)

/-- The keys of the store, in the model's iteration (= insertion) order. -/
def keysOf (dm : TaskMap) : List String := dm.map (fun p => p.1)

/-- `DownloadManager.GetTaskStatus` (src/main.go:84-86): a bare map lookup. -/
def getTaskStatus (dm : TaskMap) (taskId : String) : Option DownloadTaskInfo :=
  lookupTask dm taskId

/-- Round-to-nearest of `a / b`, ties to even: the rounding Go's `%.1f`
formatting performs on a value that the binary floating-point computation
represents exactly (which `float64(size)/1024^k` does for `size < 2^53`,
since the conversion and the power-of-two divisions are then exact). -/
def roundHalfEvenDiv (a b : Nat) : Nat :=
  if 2 * (a % b) < b then a / b
  else if b < 2 * (a % b) then a / b + 1
  else if (a / b) % 2 = 0 then a / b else a / b + 1

/-- Renders `t` tenths as a fixed one-decimal string, as `%.1f` lays out the
rounded value. -/
def oneDecimalString (t : Nat) : String :=
  toString (t / 10) ++ "." ++ toString (t % 10)

/-- `humanReadableSize` (src/main.go:188-199).  The Go code formats
`float64(size)/1024^k` with `fmt.Sprintf("%.1f")`; for `0 ≤ size < 2^53`
that equals round-half-even of `10*size/1024^k` tenths, rendered with one
decimal. -/
def humanReadableSize (size : Int) : String :=
  if size < 1024 then toString size ++ "B"
  else if size < 1024 * 1024 then
    oneDecimalString (roundHalfEvenDiv (10 * size.toNat) 1024) ++ "KB"
  else if size < 1024 * 1024 * 1024 then
    oneDecimalString (roundHalfEvenDiv (10 * size.toNat) (1024 * 1024)) ++ "MB"
  else
    oneDecimalString (roundHalfEvenDiv (10 * size.toNat) (1024 * 1024 * 1024)) ++ "GB"

/-- Body of `DownloadManager.ProgressFunc` (src/main.go:106-116) acting on the
task record it resolved through `downloadToTaskMap`.  `downloaded`,
`totalsize` and `avgSpeed` are the sampler's reads of `d.Size()`,
`d.TotalSize()` and `int64(d.AvgSpeed())`.  Note: no terminal-state guard —
the fields are overwritten unconditionally, and the status is set to
"downloading" whenever the byte counter increased. -/
def progressStep (t : DownloadTaskInfo) (downloaded totalsize : Nat)
    (avgSpeed : Int) : DownloadTaskInfo :=
  let st0 := t.status
  let st1 := if st0.downloaded < downloaded then { st0 with status := "downloading" } else st0
  let st2 := { st1 with
    downloaded := downloaded
    totalsize := totalsize
    speed := humanReadableSize avgSpeed ++ "/s" }
  { t with status := st2 }

/-- Body of `DownloadManager.CompleteTask` (src/main.go:118-124) on the task
record.  (The Go code also sets `download.StopProgress = true` on the got
handle; that flag lives in the external library and does not synchronize an
already-running progress callback.) -/
def completeStep (t : DownloadTaskInfo) (now : Int) : DownloadTaskInfo :=
  { t with status := { t.status with status := "finished" }, endAt := some now }

/-- Body of `DownloadManager.FailTask` (src/main.go:126-133) on the task record. -/
def failStep (t : DownloadTaskInfo) (errMsg : String) (now : Int) : DownloadTaskInfo :=
  { t with status := { t.status with status := "failed", errMsg := errMsg },
           endAt := some now }

/-- An operation applied to one existing task after its creation: a sampler
progress write, or the executor's terminal report. -/
inductive TaskOp where
  | progress (downloaded totalsize : Nat) (avgSpeed : Int)
  | complete (now : Int)
  | fail (errMsg : String) (now : Int)
deriving DecidableEq, Repr

/-- Dispatch of a `TaskOp` to the corresponding manager method body. -/
def taskStep (t : DownloadTaskInfo) : TaskOp → DownloadTaskInfo
  | .progress d ts sp => progressStep t d ts sp
  | .complete now => completeStep t now
  | .fail msg now => failStep t msg now

/-- Store-level application of a task operation: the record under `taskId` is
rewritten in place, exactly as the Go methods mutate `dm.Tasks[taskId]`.
(On an id that is absent the Go code would dereference a nil pointer; the
model leaves the store unchanged there, and no claim depends on that case.) -/
def stepOp (dm : TaskMap) (taskId : String) (o : TaskOp) : TaskMap :=
  dm.map (fun p => if p.1 == taskId then (p.1, taskStep p.2 o) else p)

/-- `DownloadManager.AddTask` (src/main.go:135-178).  `initResult` stands for
the external `download.Init()` / `download.Path()` pair: `none` when `Init`
fails (`AddTask` then returns the error and touches nothing), `some p` the
resolved destination path otherwise.  `relToRoot` stands for the library call
`filepath.Rel(rootDir, ·)` (with its error fallback already folded in),
`newId` for the fresh `uuid.New().String()`, `now` for `time.Now()`.  The
`dir` argument is only handed to the got download; note that no validation
of `dir` against any root directory happens anywhere in the function. -/
def addTask (dm : TaskMap) (url dir : String) (initResult : Option String)
    (relToRoot : String → String) (newId : String) (now : Int) :
    Option String × TaskMap :=
  match initResult with
  | none => (none, dm)
  | some p =>
      let storedPath := relToRoot p
      (some newId,
       dm ++ [(newId,
         { taskId := newId, url := url, filepath := storedPath,
           filename := baseName storedPath,
           status := { status := "pending", totalsize := 0, downloaded := 0,
                       speed := "", errMsg := "" },
           startedAt := now, endAt := none })])
where
  /-- `filepath.Base` for nonempty slash-separated paths without a trailing
  slash, the shape got's `Download.Path()` produces. -/
  baseName (p : String) : String := (p.splitOn "/").getLastD p

/-- `DownloadManager.ClearEndedTasks` condition (src/main.go:182): the task
has ended and `time.Since(endAt).Hours() > float64(days*24)`; with instants
in hours this is `now - e > days * 24`, strictly. -/
def endedOlderThan (t : DownloadTaskInfo) (days : Nat) (now : Int) : Bool :=
  match t.endAt with
  | some e => decide ((days : Int) * 24 < now - e)
  | none => false

/-- `DownloadManager.ClearEndedTasks` (src/main.go:180-186): delete every
entry satisfying `endedOlderThan`, keep the rest. -/
def clearEndedTasks (dm : TaskMap) (days : Nat) (now : Int) : TaskMap :=
  dm.filter (fun p => ! endedOlderThan p.2 days now)

/-- `isSubDir` (src/unnamed/part_000:288-298), for inputs that are already
absolute cleaned paths (on which `filepath.Abs` is the identity);
`os.PathSeparator` is `/`. -/
def isSubDir (parent child : String) : Bool :=
  child == parent || (parent ++ "/").data.isPrefixOf child.data

/-- The effective id list of `DownloadManager.List` (src/main.go:90-95): all
known keys when `taskIds` is empty, the given ids otherwise. -/
def effectiveIds (dm : TaskMap) (taskIds : List String) : List String :=
  if taskIds.isEmpty then keysOf dm else taskIds

/-- One iteration of the `List` loop (src/main.go:97-102): the task is
emitted iff it exists and the status filter is empty or matches. -/
def listPick (dm : TaskMap) (status : String) (taskId : String) :
    Option DownloadTaskInfo :=
  match lookupTask dm taskId with
  | some task =>
      if status = "" ∨ task.status.status = status then some task else none
  | none => none

/-- `DownloadManager.List` (src/main.go:88-104). -/
def list (dm : TaskMap) (taskIds : List String) (status : String) :
    List DownloadTaskInfo :=
  (effectiveIds dm taskIds).filterMap (listPick dm status)

/-- The ids of a result sequence, in order. -/
def taskIdsOf (l : List DownloadTaskInfo) : List String :=
  l.map (fun t => t.taskId)

/-- Whether `listPick` would emit this id — the membership test behind the
`List` result. -/
def matchesFilter (dm : TaskMap) (status : String) (taskId : String) : Bool :=
  (listPick dm status taskId).isSome

/-- One iteration of the dedup loop of `handleListTask`
(src/main.go:253-258): append the task unless its id was already seen.  The
`taskIdMap` set is modelled as a list of seen ids. -/
def dedupAppend (acc : List DownloadTaskInfo × List String)
    (t : DownloadTaskInfo) : List DownloadTaskInfo × List String :=
  if t.taskId ∈ acc.2 then acc else (acc.1 ++ [t], t.taskId :: acc.2)

/-- The query evaluated by `handleListTask` (src/main.go:241-264): run `List`
for every condition and accumulate the results, skipping already-seen ids. -/
def listOr (dm : TaskMap) (conds : List (List String × String)) :
    List DownloadTaskInfo :=
  (conds.foldl (fun acc c => (list dm c.1 c.2).foldl dedupAppend acc)
    ([], [])).1

/-- Specification-side first-occurrence dedup: keep each element whose id was
not seen before, scanning left to right. -/
def keepFirstsAux (seen : List String) :
    List DownloadTaskInfo → List DownloadTaskInfo
  | [] => []
  | t :: ts =>
      if t.taskId ∈ seen then keepFirstsAux seen ts
      else t :: keepFirstsAux (t.taskId :: seen) ts

/-- First-seen-order dedup by task id of a concatenated result sequence. -/
def keepFirsts (l : List DownloadTaskInfo) : List DownloadTaskInfo :=
  keepFirstsAux [] l

/-- The per-task record states observed over a sequence of operations,
starting from `t`: the snapshots a poller can see. -/
def snapshots (t : DownloadTaskInfo) (ops : List TaskOp) : List DownloadTaskInfo :=
  ops.scanl taskStep t

/-- The `downloaded` field over the sequence of observed snapshots. -/
def downloadsOf (t : DownloadTaskInfo) (ops : List TaskOp) : List Nat :=
  (snapshots t ops).map (fun s => s.status.downloaded)

/-- A list of byte counts is monotonically non-decreasing. -/
def nondecreasingB : List Nat → Bool
  | [] => true
  | [_] => true
  | a :: b :: l => decide (a ≤ b) && nondecreasingB (b :: l)

/-- The sampler's `d.Size()` reads carried by a sequence of operations. -/
def progressValues (ops : List TaskOp) : List Nat :=
  ops.filterMap (fun o =>
    match o with
    | .progress d _ _ => some d
    | _ => none)

/-- Every progress observation in the sequence has its byte count within the
total size it reports (or reports the total as unknown, i.e. `0`).  Modelled
from the spec: the live counters belong to the Transfer Executor (the
external got library, not part of this repository); per §4.5/§3 of the spec
it exposes a byte counter that never exceeds the known total size. -/
def progressBoundedB (ops : List TaskOp) : Bool :=
  ops.all (fun o =>
    match o with
    | .progress d ts _ => ts == 0 || decide (d ≤ ts)
    | _ => true)

/-- A snapshot's byte counter does not exceed its total size once the total
size is known (nonzero). -/
def sizeConsistent (s : DownloadTaskInfo) : Prop :=
  s.status.totalsize ≠ 0 → s.status.downloaded ≤ s.status.totalsize

/-- Store wellformedness: every record carries the id it is keyed under
(`AddTask` establishes this and no operation changes `TaskId`). -/
def WFStore (dm : TaskMap) : Prop := ∀ p ∈ dm, p.2.taskId = p.1

/-- A store entry that has not ended (its task is non-terminal). -/
def isNotEnded (p : String × DownloadTaskInfo) : Bool := p.2.endAt == none

/-- A fresh pending record as `AddTask` creates it, for concrete runs. -/
def mkPendingTask (taskId : String) : DownloadTaskInfo :=
  { taskId := taskId, url := "http://h/f", filename := "f", filepath := "f",
    status := { status := "pending", totalsize := 0, downloaded := 0,
                speed := "", errMsg := "" },
    startedAt := 0, endAt := none }

/-- A finished record with 5 bytes recorded, ended at instant 4. -/
def sampleFinishedTask : DownloadTaskInfo :=
  { taskId := "T1", url := "http://h/f", filename := "f", filepath := "f",
    status := { status := "finished", totalsize := 100, downloaded := 5,
                speed := "", errMsg := "" },
    startedAt := 0, endAt := some 4 }

/-- Store after `AddTask` of task `T1` (concrete run for claim C2). -/
def dmAfterAdd : TaskMap :=
  (addTask [] "http://h/f" "/srv/files" (some "/srv/files/f")
    (fun p => p) "T1" 0).2

/-- ... after the executor's `CompleteTask` at instant 5. -/
def dmAfterComplete : TaskMap := stepOp dmAfterAdd "T1" (TaskOp.complete 5)

/-- ... after a late sampler write that observed 10 bytes. -/
def dmAfterLateProgress : TaskMap :=
  stepOp dmAfterComplete "T1" (TaskOp.progress 10 100 0)

/-- Two-task store in insertion order `T1`, `T2` (concrete run for claim C5). -/
def dmTwoTasks : TaskMap :=
  [("T1", mkPendingTask "T1"), ("T2", mkPendingTask "T2")]

/-- Store with one ended and one running task (concrete run for claim C4). -/
def dmMixed : TaskMap :=
  [("T1", sampleFinishedTask), ("T2", mkPendingTask "T2")]

/-- Every ended task in the store ended strictly before `now`: the reachable
situation, since `endAt` records a `time.Now()` taken at an earlier
transition. -/
def allEndedBefore (dm : TaskMap) (now : Int) : Bool :=
  dm.all (fun p =>
    match p.2.endAt with
    | some e => decide (e < now)
    | none => true)

/-- A concrete operation sequence for a task: two increasing samples, then
completion. -/
def opsSample : List TaskOp :=
  [TaskOp.progress 5 100 0, TaskOp.progress 7 100 0, TaskOp.complete 9]

/-- The status field written by a progress write: "downloading" when the byte
counter increased, otherwise unchanged (src/main.go:110-112). -/
lemma progressStep_status (t : DownloadTaskInfo) (d ts : Nat) (sp : Int) :
    (progressStep t d ts sp).status.status =
      if t.status.downloaded < d then "downloading" else t.status.status := by
  by_cases h : t.status.downloaded < d <;> simp [progressStep, h]

/-- Claim C1: the spec says a terminal task's record is never changed by a
late sampler write; the code has no such guard.  On a finished task holding
5 bytes, a progress write of 10 bytes rewrites the status to "downloading",
and even a non-increasing write rewrites the speed field. -/
theorem claim_C1_sampler_overwrites_terminal :
    (progressStep sampleFinishedTask 10 100 0).status.status = "downloading" ∧
    (progressStep sampleFinishedTask 5 100 7).status ≠ sampleFinishedTask.status := by
  constructor
  · decide
  · decide

/-- Claim C2: the spec says `endedAt` is non-nil iff the status is terminal;
after the operation sequence add, complete (at instant 5), late progress
write, the task is left with `endedAt = 5` set but a non-terminal
"downloading" status. -/
theorem claim_C2_ended_but_not_terminal :
    (getTaskStatus dmAfterLateProgress "T1").map (fun t => (t.status.status, t.endAt))
      = some ("downloading", some 5) := by
  decide

/-- Claim C3: the spec says `AddTask` rejects a destination outside the root
synchronously; the code performs no such validation — with root
"/srv/files" and destination "/outside" (not a subdirectory, as the repo's
own `isSubDir` confirms), `AddTask` succeeds and records the task. -/
theorem claim_C3_addtask_skips_root_check :
    isSubDir "/srv/files" "/outside" = false ∧
    (addTask [] "http://h/f.bin" "/outside" (some "/outside/f.bin")
        (fun p => p) "T1" 0).1 = some "T1" ∧
    keysOf (addTask [] "http://h/f.bin" "/outside" (some "/outside/f.bin")
        (fun p => p) "T1" 0).2 = ["T1"] := by
  refine ⟨by decide, by decide, by decide⟩

/-- Claim C8: on a Pending task, a progress write flips the status to
Downloading exactly when the observed byte counter exceeds the previously
recorded value, and otherwise leaves the status Pending. -/
theorem claim_C8_pending_to_downloading (t : DownloadTaskInfo) (d ts : Nat)
    (sp : Int) (hp : t.status.status = "pending") :
    ((progressStep t d ts sp).status.status = "downloading"
        ↔ t.status.downloaded < d) ∧
    (¬ t.status.downloaded < d →
        (progressStep t d ts sp).status.status = "pending") := by
  rw [progressStep_status]
  by_cases h : t.status.downloaded < d
  · simp [h]
  · refine ⟨⟨fun hc => ?_, fun hc => absurd hc h⟩, fun _ => ?_⟩
    · rw [if_neg h, hp] at hc
      exact absurd hc (by decide)
    · rw [if_neg h, hp]

/-- Claim C8 witness: the freshly created pending task (0 bytes recorded)
switches to "downloading" on a 3-byte observation. -/
theorem claim_C8_witness :
    (mkPendingTask "T1").status.status = "pending" ∧
    (((progressStep (mkPendingTask "T1") 3 0 0).status.status = "downloading"
        ↔ (mkPendingTask "T1").status.downloaded < 3) ∧
      (¬ (mkPendingTask "T1").status.downloaded < 3 →
        (progressStep (mkPendingTask "T1") 3 0 0).status.status = "pending")) :=
  ⟨by decide, claim_C8_pending_to_downloading (mkPendingTask "T1") 3 0 0 (by decide)⟩

/-- Claim C4: `ClearEndedTasks` deletes exactly the entries that ended longer
than the retention window ago; it keeps every non-terminal entry; with
retention 0 (and every recorded end strictly in the past, as reachable
states have) it deletes exactly the ended entries; and an immediately
repeated call is a no-op. -/
theorem claim_C4_clear_ended_tasks (dm : TaskMap) (days : Nat) (now : Int)
    (hpast : allEndedBefore dm now = true) :
    (∀ p : String × DownloadTaskInfo,
        p ∈ clearEndedTasks dm days now ↔
          p ∈ dm ∧ endedOlderThan p.2 days now = false) ∧
    (∀ p ∈ dm, p.2.endAt = none → p ∈ clearEndedTasks dm days now) ∧
    clearEndedTasks dm 0 now = dm.filter isNotEnded ∧
    clearEndedTasks (clearEndedTasks dm days now) days now
      = clearEndedTasks dm days now := by
  refine ⟨?_, ?_, ?_, ?_⟩
  · intro p
    simp [clearEndedTasks, List.mem_filter]
  · intro p hp hnone
    simp [clearEndedTasks, List.mem_filter, hp, endedOlderThan, hnone]
  · unfold clearEndedTasks
    apply List.filter_congr
    intro p hp
    cases hE : p.2.endAt with
    | none => simp [endedOlderThan, hE, isNotEnded]
    | some e =>
        have he : e < now := by
          have h1 := List.all_eq_true.mp hpast p hp
          rw [hE] at h1
          exact of_decide_eq_true h1
        simp only [endedOlderThan, hE, isNotEnded]
        have h2 : ((0 : Nat) : Int) * 24 < now - e := by omega
        simp [h2]
        omega
  · simp [clearEndedTasks, List.filter_filter]

/-- Claim C4 witness: the mixed store (one task ended at instant 4, one
pending) at instant 10, retention 0. -/
theorem claim_C4_witness :
    allEndedBefore dmMixed 10 = true ∧
    clearEndedTasks dmMixed 0 10 = dmMixed.filter isNotEnded ∧
    clearEndedTasks (clearEndedTasks dmMixed 0 10) 0 10
      = clearEndedTasks dmMixed 0 10 := by
  have h : allEndedBefore dmMixed 10 = true := by decide
  exact ⟨h, (claim_C4_clear_ended_tasks dmMixed 0 10 h).2.2.1,
    (claim_C4_clear_ended_tasks dmMixed 0 10 h).2.2.2⟩

/-- In a wellformed store, a successful lookup returns a record carrying the
looked-up id. -/
lemma lookupTask_taskId (dm : TaskMap) (hwf : WFStore dm) (taskId : String)
    (t : DownloadTaskInfo) (h : lookupTask dm taskId = some t) :
    t.taskId = taskId := by
  unfold lookupTask at h
  cases hfind : dm.find? (fun p => p.1 == taskId) with
  | none => rw [hfind] at h; simp at h
  | some p =>
      rw [hfind] at h
      simp only [Option.map_some'] at h
      have hmem := List.mem_of_find?_eq_some hfind
      have hpred : p.1 = taskId := by
        have := List.find?_some hfind
        simpa using this
      have hid := hwf p hmem
      rw [← Option.some_inj.mp h, hid, hpred]

/-- `listPick` emits a task iff the lookup succeeds and the status filter is
empty or matches. -/
lemma listPick_eq_some (dm : TaskMap) (status taskId : String)
    (t : DownloadTaskInfo) :
    listPick dm status taskId = some t ↔
      lookupTask dm taskId = some t ∧
        (status = "" ∨ t.status.status = status) := by
  unfold listPick
  cases hl : lookupTask dm taskId with
  | none => simp
  | some task =>
      by_cases hc : status = "" ∨ task.status.status = status
      · simp only [if_pos hc, Option.some_inj]
        constructor
        · intro h
          exact ⟨by rw [h], by rw [← h]; exact hc⟩
        · intro h
          exact h.1
      · simp only [if_neg hc]
        constructor
        · intro h
          simp at h
        · intro h
          have ht : task = t := by simpa using h.1
          rw [ht] at hc
          exact absurd h.2 hc

/-- A task emitted by `listPick` for id `taskId` carries that id. -/
lemma listPick_taskId (dm : TaskMap) (hwf : WFStore dm) (status taskId : String)
    (t : DownloadTaskInfo) (h : listPick dm status taskId = some t) :
    t.taskId = taskId :=
  lookupTask_taskId dm hwf taskId t ((listPick_eq_some dm status taskId t).mp h).1

/-- The ids of the tasks `List` emits for an id list are exactly the ids
passing the existence/status test, in the order given. -/
lemma filterMap_listPick_ids (dm : TaskMap) (hwf : WFStore dm)
    (status : String) (ids : List String) :
    taskIdsOf (ids.filterMap (listPick dm status))
      = ids.filter (matchesFilter dm status) := by
  induction ids with
  | nil => rfl
  | cons taskId ids ih =>
      cases hpick : listPick dm status taskId with
      | none =>
          simp only [List.filterMap_cons, hpick, List.filter_cons,
            matchesFilter, Option.isSome_none, Bool.false_eq_true, if_false]
          exact ih
      | some t =>
          simp only [List.filterMap_cons, hpick, List.filter_cons,
            matchesFilter, Option.isSome_some, if_true]
          have hid := listPick_taskId dm hwf status taskId t hpick
          simp only [taskIdsOf, List.map_cons] at *
          rw [hid, ih]

/-- Claim C5 (amended): `List` considers all known tasks when `taskIds` is
empty and exactly the given ids otherwise, restricts by the status filter,
and returns tasks in the order of the effective id list — i.e. the order of
the request's `taskIds` when non-empty, not the store's insertion order. -/
theorem claim_C5_list_semantics (dm : TaskMap) (hwf : WFStore dm)
    (taskIds : List String) (status : String) :
    taskIdsOf (list dm taskIds status)
      = (effectiveIds dm taskIds).filter (matchesFilter dm status) ∧
    ∀ t : DownloadTaskInfo,
      t ∈ list dm taskIds status ↔
        lookupTask dm t.taskId = some t ∧
        t.taskId ∈ effectiveIds dm taskIds ∧
        (status = "" ∨ t.status.status = status) := by
  constructor
  · exact filterMap_listPick_ids dm hwf status (effectiveIds dm taskIds)
  · intro t
    unfold list
    rw [List.mem_filterMap]
    constructor
    · rintro ⟨taskId, hmem, hpick⟩
      have hid := listPick_taskId dm hwf status taskId t hpick
      have h := (listPick_eq_some dm status taskId t).mp hpick
      rw [hid]
      exact ⟨h.1, hmem, h.2⟩
    · rintro ⟨hlook, hmem, hcond⟩
      exact ⟨t.taskId, hmem, (listPick_eq_some dm status t.taskId t).mpr ⟨hlook, hcond⟩⟩

/-- Claim C5 counterexample: with tasks inserted in order `T1`, `T2`, the
query `List(["T2","T1"], "")` returns them in request order `T2`, `T1` —
not a subsequence of the store's iteration (insertion) order, refuting the
claim's order clause. -/
theorem claim_C5_counterexample :
    taskIdsOf (list dmTwoTasks ["T2", "T1"] "") = ["T2", "T1"] ∧
    keysOf dmTwoTasks = ["T1", "T2"] ∧
    ¬ List.Sublist (taskIdsOf (list dmTwoTasks ["T2", "T1"] ""))
        (keysOf dmTwoTasks) := by
  refine ⟨by decide, by decide, by decide⟩

/-- Claim C5 witness: the amended order statement evaluated on the two-task
store with an explicit id list. -/
theorem claim_C5_witness :
    WFStore dmTwoTasks ∧
    taskIdsOf (list dmTwoTasks ["T2", "T1"] "")
      = (effectiveIds dmTwoTasks ["T2", "T1"]).filter (matchesFilter dmTwoTasks "") := by
  have h : WFStore dmTwoTasks := by
    have hb : ∀ p ∈ dmTwoTasks, p.2.taskId = p.1 := by decide
    exact hb
  exact ⟨h, (claim_C5_list_semantics dmTwoTasks h ["T2", "T1"] "").1⟩

/-- Folding the dedup loop over a result chunk appends exactly the
first-occurrence survivors (relative to the already-seen ids). -/
lemma foldl_dedupAppend (l : List DownloadTaskInfo)
    (r : List DownloadTaskInfo) (s : List String) :
    (l.foldl dedupAppend (r, s)).1 = r ++ keepFirstsAux s l := by
  induction l generalizing r s with
  | nil => simp [keepFirstsAux]
  | cons t ts ih =>
      by_cases h : t.taskId ∈ s
      · simp only [List.foldl_cons, dedupAppend, keepFirstsAux]
        rw [if_pos h, if_pos h]
        exact ih r s
      · simp only [List.foldl_cons, dedupAppend, keepFirstsAux]
        rw [if_neg h, if_neg h]
        rw [ih (r ++ [t]) (t.taskId :: s)]
        simp

/-- The nested fold of `handleListTask` equals one fold over the
concatenation of the per-condition results. -/
lemma listOr_eq_foldl_flatten (dm : TaskMap)
    (conds : List (List String × String))
    (acc : List DownloadTaskInfo × List String) :
    conds.foldl (fun acc c => (list dm c.1 c.2).foldl dedupAppend acc) acc
      = ((conds.map (fun c => list dm c.1 c.2)).flatten).foldl dedupAppend acc := by
  induction conds generalizing acc with
  | nil => rfl
  | cons c cs ih =>
      simp only [List.foldl_cons, List.map_cons, List.flatten_cons,
        List.foldl_append]
      exact ih _

/-- Nothing kept by the dedup scan carries an id that was already seen. -/
lemma keepFirstsAux_not_mem (l : List DownloadTaskInfo) :
    ∀ s, ∀ t ∈ keepFirstsAux s l, t.taskId ∉ s := by
  induction l with
  | nil => intro s t ht; simp [keepFirstsAux] at ht
  | cons x xs ih =>
      intro s t ht
      by_cases h : x.taskId ∈ s
      · rw [keepFirstsAux, if_pos h] at ht
        exact ih s t ht
      · rw [keepFirstsAux, if_neg h] at ht
        rcases List.mem_cons.mp ht with h1 | h1
        · rw [h1]; exact h
        · have := ih (x.taskId :: s) t h1
          exact fun hs => this (List.mem_cons_of_mem _ hs)

/-- The dedup scan emits pairwise-distinct ids. -/
lemma keepFirstsAux_nodup (l : List DownloadTaskInfo) :
    ∀ s, (taskIdsOf (keepFirstsAux s l)).Nodup := by
  induction l with
  | nil => intro s; simp [keepFirstsAux, taskIdsOf]
  | cons x xs ih =>
      intro s
      by_cases h : x.taskId ∈ s
      · rw [keepFirstsAux, if_pos h]
        exact ih s
      · rw [keepFirstsAux, if_neg h]
        simp only [taskIdsOf, List.map_cons, List.nodup_cons]
        constructor
        · intro hmem
          rcases List.mem_map.mp hmem with ⟨t, ht, hid⟩
          have := keepFirstsAux_not_mem xs (x.taskId :: s) t ht
          exact this (by rw [hid]; exact List.mem_cons_self _ _)
        · exact ih (x.taskId :: s)

/-- Claim C6: the task-list query evaluates `List` per condition and returns
the first-seen-order dedup by task id of the concatenated results, so each
task id appears at most once even when it matches several conditions. -/
theorem claim_C6_listor_dedup (dm : TaskMap)
    (conds : List (List String × String)) :
    listOr dm conds
      = keepFirsts ((conds.map (fun c => list dm c.1 c.2)).flatten) ∧
    (taskIdsOf (listOr dm conds)).Nodup := by
  have h1 : listOr dm conds
      = keepFirsts ((conds.map (fun c => list dm c.1 c.2)).flatten) := by
    unfold listOr keepFirsts
    rw [listOr_eq_foldl_flatten, foldl_dedupAppend]
    simp
  refine ⟨h1, ?_⟩
  rw [h1]
  exact keepFirstsAux_nodup _ []

/-- The first observed snapshot is the starting record. -/
lemma downloadsOf_head (t : DownloadTaskInfo) (ops : List TaskOp) :
    (downloadsOf t ops).head? = some t.status.downloaded := by
  cases ops <;> rfl

/-- A byte-count list headed by `a` is non-decreasing when its tail is and
`a` is at most the tail's head. -/
lemma nondecreasingB_cons_of (a : Nat) (l : List Nat)
    (h1 : nondecreasingB l = true) (h2 : ∀ b, l.head? = some b → a ≤ b) :
    nondecreasingB (a :: l) = true := by
  cases l with
  | nil => rfl
  | cons b l =>
      have hab := h2 b rfl
      show (decide (a ≤ b) && nondecreasingB (b :: l)) = true
      rw [Bool.and_eq_true]
      exact ⟨decide_eq_true hab, h1⟩

/-- Conversely, dropping the head of a non-decreasing list keeps it
non-decreasing, and the head is at most the next element. -/
lemma nondecreasingB_cons_elim (a : Nat) (l : List Nat)
    (h : nondecreasingB (a :: l) = true) :
    nondecreasingB l = true ∧ ∀ b, l.head? = some b → a ≤ b := by
  cases l with
  | nil => exact ⟨rfl, by intro b hb; simp at hb⟩
  | cons b l =>
      have h' : (decide (a ≤ b) && nondecreasingB (b :: l)) = true := h
      rw [Bool.and_eq_true] at h'
      refine ⟨h'.2, ?_⟩
      intro b' hb'
      have : b = b' := by simpa using hb'
      rw [← this]
      exact of_decide_eq_true h'.1

/-- If the sampler's observed byte counts (prefixed with the record's
current count) form a non-decreasing sequence, then the `downloaded` field
over all observed snapshots is non-decreasing. -/
lemma downloads_chain (ops : List TaskOp) :
    ∀ t : DownloadTaskInfo,
      nondecreasingB (t.status.downloaded :: progressValues ops) = true →
      nondecreasingB (downloadsOf t ops) = true := by
  induction ops with
  | nil => intro t _; rfl
  | cons o ops ih =>
      intro t h
      have hcons : downloadsOf t (o :: ops)
          = t.status.downloaded :: downloadsOf (taskStep t o) ops := rfl
      rw [hcons]
      cases o with
      | progress d ts sp =>
          have hpv : progressValues (TaskOp.progress d ts sp :: ops)
              = d :: progressValues ops := rfl
          rw [hpv] at h
          obtain ⟨h1, h2⟩ := nondecreasingB_cons_elim _ _ h
          apply nondecreasingB_cons_of
          · exact ih (taskStep t (TaskOp.progress d ts sp)) h1
          · intro b hb
            rw [downloadsOf_head] at hb
            have hbd : d = b := by simpa using hb
            rw [← hbd]
            exact h2 d rfl
      | complete now =>
          obtain ⟨h1, h2⟩ := nondecreasingB_cons_elim _ _ h
          apply nondecreasingB_cons_of
          · exact ih (taskStep t (TaskOp.complete now)) h
          · intro b hb
            rw [downloadsOf_head] at hb
            have hbd : t.status.downloaded = b := by simpa using hb
            rw [← hbd]
      | fail msg now =>
          obtain ⟨h1, h2⟩ := nondecreasingB_cons_elim _ _ h
          apply nondecreasingB_cons_of
          · exact ih (taskStep t (TaskOp.fail msg now)) h
          · intro b hb
            rw [downloadsOf_head] at hb
            have hbd : t.status.downloaded = b := by simpa using hb
            rw [← hbd]

/-- If every progress observation is within its reported total size, every
observed snapshot keeps `downloaded ≤ totalsize` whenever `totalsize` is
known. -/
lemma snapshots_bounded (ops : List TaskOp) :
    ∀ t : DownloadTaskInfo, progressBoundedB ops = true → sizeConsistent t →
      ∀ s ∈ snapshots t ops, sizeConsistent s := by
  induction ops with
  | nil =>
      intro t _ ht s hs
      have h1 : snapshots t [] = [t] := rfl
      rw [h1] at hs
      rw [List.mem_singleton.mp hs]
      exact ht
  | cons o ops ih =>
      intro t hb ht s hs
      have hcons : snapshots t (o :: ops) = t :: snapshots (taskStep t o) ops := rfl
      rw [hcons] at hs
      have hb' : ((fun o => match o with
          | TaskOp.progress d ts _ => ts == 0 || decide (d ≤ ts)
          | _ => true) o
        && progressBoundedB ops) = true := hb
      rw [Bool.and_eq_true] at hb'
      rcases List.mem_cons.mp hs with h1 | h1
      · rw [h1]; exact ht
      · apply ih (taskStep t o) hb'.2 ?_ s h1
        cases o with
        | progress d ts sp =>
            intro hts
            have hf := hb'.1
            rcases Bool.or_eq_true_iff.mp hf with h2 | h2
            · exact absurd (by simpa using h2) hts
            · exact of_decide_eq_true h2
        | complete now => exact ht
        | fail msg now => exact ht

/-- Claim C7: starting from any record whose byte count is consistent, if
the executor's counters read by the sampler are non-decreasing and within
the reported total (as the spec's Transfer Executor guarantees), then over
every sequence of observed snapshots `downloaded` never decreases and never
exceeds a known nonzero `totalsize`. -/
theorem claim_C7_progress_monotone (t : DownloadTaskInfo) (ops : List TaskOp)
    (hmono : nondecreasingB (t.status.downloaded :: progressValues ops) = true)
    (hb : progressBoundedB ops = true)
    (hinit : sizeConsistent t) :
    nondecreasingB (downloadsOf t ops) = true ∧
    ∀ s ∈ snapshots t ops, sizeConsistent s :=
  ⟨downloads_chain ops t hmono, snapshots_bounded ops t hb hinit⟩

/-- Claim C7 witness: the fresh pending task under two increasing samples
and a completion. -/
theorem claim_C7_witness :
    nondecreasingB ((mkPendingTask "T1").status.downloaded
        :: progressValues opsSample) = true ∧
    progressBoundedB opsSample = true ∧
    sizeConsistent (mkPendingTask "T1") ∧
    nondecreasingB (downloadsOf (mkPendingTask "T1") opsSample) = true := by
  have h1 : nondecreasingB ((mkPendingTask "T1").status.downloaded
      :: progressValues opsSample) = true := by decide
  have h2 : progressBoundedB opsSample = true := by decide
  have h3 : sizeConsistent (mkPendingTask "T1") := by
    unfold sizeConsistent
    decide
  exact ⟨h1, h2, h3,
    (claim_C7_progress_monotone (mkPendingTask "T1") opsSample h1 h2 h3).1⟩

/-- Round-half-even division lands within half a unit of the exact
quotient. -/
lemma roundHalfEvenDiv_close (a b : Nat) (hb : 0 < b) :
    |(roundHalfEvenDiv a b : ℚ) - (a : ℚ) / (b : ℚ)| ≤ 1 / 2 := by
  have hbq : (0 : ℚ) < (b : ℚ) := by exact_mod_cast hb
  unfold roundHalfEvenDiv
  set q : Nat := a / b with hqdef
  set r : Nat := a % b with hrdef
  have hmod : b * q + r = a := Nat.div_add_mod a b
  have hrlt : r < b := Nat.mod_lt a hb
  have hab : (a : ℚ) = (b : ℚ) * (q : ℚ) + (r : ℚ) := by exact_mod_cast hmod.symm
  have hdiv : (a : ℚ) / (b : ℚ) = (q : ℚ) + (r : ℚ) / (b : ℚ) := by
    rw [hab]
    field_simp
    ring
  rw [hdiv]
  have hrnn : (0 : ℚ) ≤ (r : ℚ) / (b : ℚ) :=
    div_nonneg (by positivity) (le_of_lt hbq)
  rcases lt_trichotomy (2 * r) b with h1 | h1 | h1
  · rw [if_pos h1]
    have hle : (r : ℚ) / (b : ℚ) ≤ 1 / 2 := by
      rw [div_le_div_iff hbq (by norm_num : (0 : ℚ) < 2)]
      have h2 : ((2 * r : Nat) : ℚ) ≤ ((b : Nat) : ℚ) := by
        exact_mod_cast le_of_lt h1
      push_cast at h2
      linarith
    have heq : (q : ℚ) - ((q : ℚ) + (r : ℚ) / (b : ℚ)) = -((r : ℚ) / (b : ℚ)) := by
      ring
    rw [heq, abs_neg, abs_of_nonneg hrnn]
    exact hle
  · have hx1 : ¬ 2 * r < b := by omega
    have hx2 : ¬ b < 2 * r := by omega
    rw [if_neg hx1, if_neg hx2]
    have hr0 : (0 : ℚ) < (r : ℚ) := by
      have : 0 < r := by omega
      exact_mod_cast this
    have hhalf : (r : ℚ) / (b : ℚ) = 1 / 2 := by
      have hb2 : ((b : Nat) : ℚ) = 2 * (r : ℚ) := by exact_mod_cast h1.symm
      rw [hb2]
      field_simp
      ring
    by_cases hq : q % 2 = 0
    · rw [if_pos hq]
      have heq : (q : ℚ) - ((q : ℚ) + (r : ℚ) / (b : ℚ)) = -(1 / 2) := by
        rw [hhalf]; ring
      rw [heq, abs_neg]
      rw [abs_of_nonneg (by norm_num : (0 : ℚ) ≤ 1 / 2)]
    · rw [if_neg hq]
      push_cast
      have heq : ((q : ℚ) + 1) - ((q : ℚ) + (r : ℚ) / (b : ℚ)) = 1 / 2 := by
        rw [hhalf]; ring
      rw [heq]
      rw [abs_of_nonneg (by norm_num : (0 : ℚ) ≤ 1 / 2)]
  · have hx1 : ¬ 2 * r < b := by omega
    rw [if_neg hx1, if_pos h1]
    have hge : 1 / 2 ≤ (r : ℚ) / (b : ℚ) := by
      rw [le_div_iff hbq]
      have h2 : ((b : Nat) : ℚ) ≤ ((2 * r : Nat) : ℚ) := by
        exact_mod_cast le_of_lt h1
      push_cast at h2
      linarith
    have hlt1 : (r : ℚ) / (b : ℚ) < 1 := by
      rw [div_lt_one hbq]
      exact_mod_cast hrlt
    push_cast
    have heq : ((q : ℚ) + 1) - ((q : ℚ) + (r : ℚ) / (b : ℚ))
        = 1 - (r : ℚ) / (b : ℚ) := by ring
    rw [heq, abs_of_nonneg (by linarith)]
    linarith

/-- The one-decimal figure the formatter prints is within a twentieth of
the exact scaled value. -/
lemma oneDecimal_close (n : Int) (h0 : 0 ≤ n) (b : Nat) (hb : 0 < b) :
    |(roundHalfEvenDiv (10 * n.toNat) b : ℚ) / 10 - (n : ℚ) / (b : ℚ)| ≤ 1 / 20 := by
  have h := roundHalfEvenDiv_close (10 * n.toNat) b hb
  have htn : ((n.toNat : Nat) : ℚ) = (n : ℚ) := by
    rw [← Int.cast_natCast (R := ℚ), Int.toNat_of_nonneg h0]
  have hcast : ((10 * n.toNat : Nat) : ℚ) = 10 * (n : ℚ) := by
    rw [← htn]
    push_cast
    ring
  have key : (roundHalfEvenDiv (10 * n.toNat) b : ℚ) / 10 - (n : ℚ) / (b : ℚ)
      = ((roundHalfEvenDiv (10 * n.toNat) b : ℚ)
          - ((10 * n.toNat : Nat) : ℚ) / (b : ℚ)) / 10 := by
    rw [hcast]
    ring
  rw [key, abs_div]
  have h10 : |(10 : ℚ)| = 10 := by norm_num
  rw [h10]
  linarith

/-- Claim C9: the human-readable size formatter uses the 1024-power
thresholds with suffixes B/KB/MB/GB, prints exact integer bytes below 1024
and otherwise a one-decimal figure of `n / 1024^k` (accurate to half a
tenth), and produces the four example strings.  The one-decimal accuracy
statements are proved on `n < 2^53`, the domain on which Go's float64
computation is exact. -/
theorem claim_C9_human_readable_size (n : Int) (h0 : 0 ≤ n) (h53 : n < 2 ^ 53) :
    (n < 1024 → humanReadableSize n = toString n ++ "B") ∧
    (1024 ≤ n → n < 1024 ^ 2 →
      ∃ t : Nat, humanReadableSize n = oneDecimalString t ++ "KB" ∧
        |(t : ℚ) / 10 - (n : ℚ) / 1024| ≤ 1 / 20) ∧
    (1024 ^ 2 ≤ n → n < 1024 ^ 3 →
      ∃ t : Nat, humanReadableSize n = oneDecimalString t ++ "MB" ∧
        |(t : ℚ) / 10 - (n : ℚ) / 1024 ^ 2| ≤ 1 / 20) ∧
    (1024 ^ 3 ≤ n →
      ∃ t : Nat, humanReadableSize n = oneDecimalString t ++ "GB" ∧
        |(t : ℚ) / 10 - (n : ℚ) / 1024 ^ 3| ≤ 1 / 20) ∧
    humanReadableSize 1023 = "1023B" ∧ humanReadableSize 1024 = "1.0KB" ∧
    humanReadableSize 1048576 = "1.0MB" ∧
    humanReadableSize 1073741824 = "1.0GB" := by
  refine ⟨?_, ?_, ?_, ?_, by decide, by decide, by decide, by decide⟩
  · intro hlt
    unfold humanReadableSize
    rw [if_pos hlt]
  · intro hge hlt
    have hge' : ¬ n < 1024 := by omega
    have hlt' : n < 1024 * 1024 := by
      have hpow : (1024 : Int) ^ 2 = 1024 * 1024 := by norm_num
      omega
    refine ⟨roundHalfEvenDiv (10 * n.toNat) 1024, ?_, ?_⟩
    · unfold humanReadableSize
      rw [if_neg hge', if_pos hlt']
    · have h := oneDecimal_close n h0 1024 (by norm_num)
      have hc : ((1024 : Nat) : ℚ) = (1024 : ℚ) := by norm_num
      rw [hc] at h
      exact h
  · intro hge hlt
    have hge1 : ¬ n < 1024 := by
      have hpow : (1024 : Int) ^ 2 = 1024 * 1024 := by norm_num
      omega
    have hge2 : ¬ n < 1024 * 1024 := by
      have hpow : (1024 : Int) ^ 2 = 1024 * 1024 := by norm_num
      omega
    have hlt' : n < 1024 * 1024 * 1024 := by
      have hpow : (1024 : Int) ^ 3 = 1024 * 1024 * 1024 := by norm_num
      omega
    refine ⟨roundHalfEvenDiv (10 * n.toNat) (1024 * 1024), ?_, ?_⟩
    · unfold humanReadableSize
      rw [if_neg hge1, if_neg hge2, if_pos hlt']
    · have h := oneDecimal_close n h0 (1024 * 1024) (by norm_num)
      have hc : ((1024 * 1024 : Nat) : ℚ) = (1024 : ℚ) ^ 2 := by norm_num
      rw [hc] at h
      exact h
  · intro hge
    have hge1 : ¬ n < 1024 := by
      have hpow : (1024 : Int) ^ 3 = 1024 * 1024 * 1024 := by norm_num
      omega
    have hge2 : ¬ n < 1024 * 1024 := by
      have hpow : (1024 : Int) ^ 3 = 1024 * 1024 * 1024 := by norm_num
      omega
    have hge3 : ¬ n < 1024 * 1024 * 1024 := by
      have hpow : (1024 : Int) ^ 3 = 1024 * 1024 * 1024 := by norm_num
      omega
    refine ⟨roundHalfEvenDiv (10 * n.toNat) (1024 * 1024 * 1024), ?_, ?_⟩
    · unfold humanReadableSize
      rw [if_neg hge1, if_neg hge2, if_neg hge3]
    · have h := oneDecimal_close n h0 (1024 * 1024 * 1024) (by norm_num)
      have hc : ((1024 * 1024 * 1024 : Nat) : ℚ) = (1024 : ℚ) ^ 3 := by norm_num
      rw [hc] at h
      exact h

/-- Claim C9 witness: the formatter evaluated through the theorem at small
concrete inputs. -/
theorem claim_C9_witness :
    (0 : Int) ≤ 100 ∧ (100 : Int) < 2 ^ 53 ∧
    humanReadableSize 100 = toString (100 : Int) ++ "B" ∧
    humanReadableSize 1024 = "1.0KB" ∧ humanReadableSize 1073741824 = "1.0GB" := by
  have h := claim_C9_human_readable_size 100 (by decide) (by decide)
  exact ⟨by decide, by decide, h.1 (by decide), h.2.2.2.2.2.1, h.2.2.2.2.2.2.2⟩

/-- Claim C10: an unknown task id is harmless — `GetTaskStatus` returns
`none` (Go's `nil`) rather than failing, and inside a `List` query an
unknown id contributes no result entry, so it can be dropped from the id
list without changing the result (as long as the id list stays non-empty,
since an empty list switches `List` to all-known-tasks mode). -/
theorem claim_C10_unknown_ids (dm : TaskMap) (taskId : String)
    (h : ¬ taskId ∈ keysOf dm) :
    getTaskStatus dm taskId = none ∧
    ∀ (ids1 ids2 : List String) (status : String), ids1 ++ ids2 ≠ [] →
      list dm (ids1 ++ taskId :: ids2) status = list dm (ids1 ++ ids2) status := by
  have hlook : lookupTask dm taskId = none := by
    unfold lookupTask
    rw [List.find?_eq_none.mpr]
    · rfl
    · intro p hp hbeq
      apply h
      unfold keysOf
      rw [← (by simpa using hbeq : p.1 = taskId)]
      exact List.mem_map_of_mem _ hp
  refine ⟨hlook, ?_⟩
  intro ids1 ids2 status hne
  have hpick : listPick dm status taskId = none := by
    unfold listPick
    rw [hlook]
  have he1 : effectiveIds dm (ids1 ++ taskId :: ids2) = ids1 ++ taskId :: ids2 := by
    unfold effectiveIds
    rw [if_neg]
    simp
  have he2 : effectiveIds dm (ids1 ++ ids2) = ids1 ++ ids2 := by
    unfold effectiveIds
    rw [if_neg]
    simp [hne]
  unfold list
  rw [he1, he2, List.filterMap_append, List.filterMap_append,
    List.filterMap_cons, hpick]

/-- Claim C10 witness: looking up and listing the unknown id `"ZZ"` against
the two-task store. -/
theorem claim_C10_witness :
    ¬ "ZZ" ∈ keysOf dmTwoTasks ∧
    getTaskStatus dmTwoTasks "ZZ" = none ∧
    list dmTwoTasks (["T1"] ++ "ZZ" :: []) "" = list dmTwoTasks (["T1"] ++ []) "" := by
  have h : ¬ "ZZ" ∈ keysOf dmTwoTasks := by decide
  exact ⟨h, (claim_C10_unknown_ids dmTwoTasks "ZZ" h).1,
    (claim_C10_unknown_ids dmTwoTasks "ZZ" h).2 ["T1"] [] "" (by decide)⟩

end GoFileServer
